import Mathlib

/-!
Verification of the reduction core of `steps/lisp01` (files
`src/steps/lisp01/entities.py`).  The Python classes `Entity`, `Integer`,
`String`, `Name`, `Function`, `Call` and the module-level builtin table
`BUILT_IN_NAMES` are embedded shallowly below.  Conventions of the model:

* Python `int` and `str` payloads are `Int` and `String`.  Python `float`
  values (which arise from `a ** b` with a negative exponent) are finite
  IEEE 754 binary64 values, represented here by the dyadic rationals they
  denote.  The int-to-double conversion and the rounding of `**` results
  are modelled exactly: `rnDouble` is round-to-nearest, ties-to-even at 53
  significant bits with the binary64 exponent range, overflow (to what
  CPython surfaces as `OverflowError`) included; the C library `pow` that
  CPython calls is taken to be correctly rounded (true of glibc since
  2.28, and the IEEE 754 recommended behaviour).  Signed zeros are not
  distinguished, and `**` with a float exponent (whose value is generally
  irrational) is outside the model and mapped to a dedicated error value.
  Float arithmetic under `+`, `-`, `*` keeps exact rational results (no
  claim concerns those paths; the doc comments there say so).
* Python exceptions are an explicit error type.  `KeyError` (from
  `runtime[self.name]`), `TypeError` (from `Entity.call`, from the Python
  call protocol on a wrong argument count, and from unsupported operand
  types) and `AttributeError`/`ZeroDivisionError` each get a constructor
  carrying the information the Python exception carries.
* Python's `while` loop in `Entity.reduce` is unbounded; the model takes a
  fuel parameter and reports exhaustion as the artificial error `noFuel`.
* `Entity.reduce` detects its fixed point with `next_state is state`
  (object identity, not `==`).  `compute_one_step` returns the *same
  object* exactly when the state is an `Integer`, `String` or `Function`
  (they return `self`), or when the state is a `Name` whose lookup returns
  the very dict entry the state itself came from.  The model tracks the
  latter with a provenance argument: `some k` means the current state was
  obtained as `runtime[k]` (environments are assumed alias-free: distinct
  keys are bound to distinct objects, as produced by `dict(BUILT_IN_NAMES)`
  and all the repository's tests).  Results of `Function.call` are freshly
  constructed objects, never identical to the call term.
* The runtime dictionary is threaded through every operation and returned,
  so that the absence of mutation is a provable statement rather than a
  typing convention.
-/

/-- Tags for the five Python functions registered in `BUILT_IN_NAMES`
(`entities.py`, decorated with `@register`).  The table is closed, so the
first-class `fn` field of `Function` is defunctionalized into this type. -/
inductive BuiltinFn
  | add
  | multiply
  | subtract
  | power
  | sumOfSquares
deriving DecidableEq

/-- The Python identifier of the underlying function object (used by the
call-protocol arity failure message). -/
def BuiltinFn.pyName : BuiltinFn → String
  | .add => "add"
  | .multiply => "multiply"
  | .subtract => "subtract"
  | .power => "power"
  | .sumOfSquares => "sum_of_squares"

/-- A host (Python) value as storable in `Integer.value`.  `Integer.__init__`
performs no check, so payloads other than `int` are representable: a float
(from `**` with a negative exponent; represented by the rational value the
IEEE double denotes) or a string (from `+` on two string payloads). -/
inductive PyVal
  | int (n : Int)
  | float (q : Rat)
  | str (s : String)
deriving DecidableEq

/-- Python exceptions reachable in the reduction core, plus the artificial
`noFuel` used to bound the unbounded `while` loop of `Entity.reduce`. -/
inductive Err
  | noFuel
  | keyError (key : String)
  | cannotCall (calleeRepr : String)
  | argCountError (fname : String) (expected given : Nat)
  | operandTypeError (op : String)
  | attributeError (cls attr : String)
  | zeroDivisionError
  | overflowError
  | floatPowError
deriving DecidableEq

/-- The term model of `entities.py`: one constructor per Python class
deriving from `Entity`. -/
inductive Entity
  | integer (value : PyVal)
  | string (value : String)
  | name (n : String)
  | function (fname : String) (fn : BuiltinFn)
  | call (fn : Entity) (args : List Entity)

/-- The runtime dictionary: a mapping from identifiers to entities.  The
source only ever reads it (`runtime[self.name]`). -/
abbrev Env := String → Option Entity

/-- Outcome of a reduction-core operation: the Python return value or the
raised exception, together with the runtime dictionary as it stands after
the operation. -/
abbrev Res := Except Err Entity × Env

/-- An apostrophe character, used by Python `repr` on strings. -/
def quoteChar : String := String.singleton (Char.ofNat 39)

/-- Python `str` of a payload value.  Floats are rendered as exact
rationals `num/den` (idealization of Python's decimal float rendering);
no claim depends on a float rendering. -/
def pyStr : PyVal → String
  | .int n => toString n
  | .float q => toString q.num ++ "/" ++ toString q.den
  | .str s => s

mutual

/-- Python `repr`/`str` of an entity: `render true` is `repr(e)`,
`render false` is `str(e)`.  `Integer.__str__`/`__repr__`, `String.__str__`
(which is `repr(self.value)`, quoting the payload; escape sequences are not
modelled), `Name.__str__`, and the `__repr__` f-strings of `Name`,
`Function` and `Call` are transcribed; entities without the relevant method
fall back the way Python does.  The memory address inside the repr of a
function object is elided. -/
def render : Bool → Entity → String
  | true, .integer v => "Integer(" ++ pyStr v ++ ")"
  | false, .integer v => pyStr v
  | true, .string s => "String(" ++ s ++ ")"
  | false, .string s => quoteChar ++ s ++ quoteChar
  | true, .name n => "Name(" ++ n ++ ")"
  | false, .name n => n
  | _, .function fname fn =>
      "Function(" ++ quoteChar ++ fname ++ quoteChar ++ ", <function "
        ++ fn.pyName ++ ">)"
  | _, .call f args => "Call(" ++ render false f ++ ", " ++ renderList args ++ ")"

/-- Comma-separated `repr`s of the arguments of a `Call` (the
`", ".join(map(repr, self.args))` part of `Call.__repr__`). -/
def renderList : List Entity → String
  | [] => ""
  | [a] => render true a
  | a :: rest => render true a ++ ", " ++ renderList rest

end

/-- Python `repr(e)`. -/
def reprE (e : Entity) : String := render true e

/-- Python `==` between payload values (used by `Integer.__eq__` through
`other.value == self.value`).  Python compares `int` and `float` payloads
numerically; values of unrelated types compare unequal. -/
def pyValEq : PyVal → PyVal → Bool
  | .int a, .int b => a == b
  | .int a, .float q => (a : Rat) == q
  | .float q, .int b => q == (b : Rat)
  | .float p, .float q => p == q
  | .str s, .str t => s == t
  | _, _ => false

/-- Python `==` between two *distinct* entity objects.  `Integer.__eq__`
and `String.__eq__` compare payloads after an `isinstance` check; `Name`,
`Function` and `Call` define no `__eq__`, so they inherit the default
object-identity comparison, under which distinct objects are unequal. -/
def pyEq : Entity → Entity → Bool
  | .integer v, .integer w => pyValEq v w
  | .string s, .string t => s == t
  | _, _ => false

/-- Python attribute access `e.value` as performed by the arithmetic
builtin bodies; entities of classes without a `value` attribute raise
`AttributeError`. -/
def getValue : Entity → Except Err PyVal
  | .integer v => .ok v
  | .string s => .ok (.str s)
  | .name _ => .error (.attributeError "Name" "value")
  | .function _ _ => .error (.attributeError "Function" "value")
  | .call _ _ => .error (.attributeError "Call" "value")

/-- Python `+` on payload values: exact on integers, concatenation on two
strings, numeric promotion with a float operand (kept as the exact
rational sum; no claim exercises float addition), `TypeError`
otherwise. -/
def pyAdd : PyVal → PyVal → Except Err PyVal
  | .int a, .int b => .ok (.int (a + b))
  | .int a, .float q => .ok (.float (a + q))
  | .float q, .int b => .ok (.float (q + b))
  | .float p, .float q => .ok (.float (p + q))
  | .str s, .str t => .ok (.str (s ++ t))
  | _, _ => .error (.operandTypeError "+")

/-- Python `-` on payload values (float differences kept exact; no claim
exercises them). -/
def pySub : PyVal → PyVal → Except Err PyVal
  | .int a, .int b => .ok (.int (a - b))
  | .int a, .float q => .ok (.float (a - q))
  | .float q, .int b => .ok (.float (q - b))
  | .float p, .float q => .ok (.float (p - q))
  | _, _ => .error (.operandTypeError "-")

/-- Python string repetition `s * n` (empty for a non-positive count). -/
def strRepeat (s : String) (n : Int) : String :=
  String.join (List.replicate n.toNat s)

/-- Python `*` on payload values, including string repetition (float
products kept exact; no claim exercises them). -/
def pyMul : PyVal → PyVal → Except Err PyVal
  | .int a, .int b => .ok (.int (a * b))
  | .int a, .float q => .ok (.float (a * q))
  | .float q, .int b => .ok (.float (q * b))
  | .float p, .float q => .ok (.float (p * q))
  | .str s, .int n => .ok (.str (strRepeat s n))
  | .int n, .str s => .ok (.str (strRepeat s n))
  | _, _ => .error (.operandTypeError "*")

/-- Floor of the base-2 logarithm of a positive natural number, computed
with the number itself as recursion fuel (halving stops long before the
fuel runs out). -/
def nlog2Go : Nat → Nat → Nat
  | 0, _ => 0
  | fuel + 1, n => if n ≤ 1 then 0 else nlog2Go fuel (n / 2) + 1

/-- Floor of the base-2 logarithm of a positive natural number. -/
def nlog2 (n : Nat) : Nat := nlog2Go n n

/-- The binary exponent of a nonzero rational: the unique `e` with
`2 ^ e ≤ |q| < 2 ^ (e + 1)`. -/
def expOf (q : Rat) : Int :=
  if 1 ≤ |q| then (nlog2 (Int.toNat (Int.floor |q|)) : Int)
  else
    (if (2 : Rat) ^ (-(nlog2 (Int.toNat (Int.floor |q|⁻¹)) : Int)) ≤ |q|
     then -(nlog2 (Int.toNat (Int.floor |q|⁻¹)) : Int)
     else -(nlog2 (Int.toNat (Int.floor |q|⁻¹)) : Int) - 1)

/-- Round a rational to the nearest integer, ties to the even neighbour
(the IEEE 754 default rounding applied at integer granularity). -/
def roundHalfEven (q : Rat) : Int :=
  if q - Int.floor q < 1 / 2 then Int.floor q
  else if 1 / 2 < q - Int.floor q then Int.floor q + 1
  else if Int.floor q % 2 = 0 then Int.floor q else Int.floor q + 1

/-- Scaling exponent used when rounding to a binary64 value: a normal
number is scaled into the 53-bit significand range; below the normal
range the fixed subnormal grid of spacing `2 ^ (-1074)` applies. -/
def kOf (q : Rat) : Int := if expOf q < -1022 then 1074 else 52 - expOf q

/-- The binary64 value nearest `q` (round-to-nearest, ties-to-even):
scale, round to the nearest even integer, scale back. -/
def rnVal (q : Rat) : Rat := (roundHalfEven (q * 2 ^ kOf q) : Rat) * 2 ^ (-kOf q)

/-- Round a rational to the nearest IEEE 754 binary64 value.  `none`
means the rounded magnitude reached `2 ^ 1024`, i.e. the double
overflows — which CPython surfaces as `OverflowError` on int-to-float
conversion and on a `pow` range error.  The double's value is returned
as the dyadic rational it denotes; signed zeros are not
distinguished. -/
def rnDouble (q : Rat) : Option Rat :=
  if q = 0 then some 0
  else if |rnVal q| < 2 ^ (1024 : Int) then some (rnVal q) else none

/-- CPython `PyLong_AsDouble`: an `int` converts to the nearest double;
`OverflowError` when the rounded magnitude reaches `2 ^ 1024`. -/
def intToDouble (a : Int) : Option Rat := rnDouble (a : Rat)

/-- Python `**` on payload values.  `int ** int` with a non-negative
exponent is CPython's exact arbitrary-precision integer power.  With a
negative exponent CPython delegates to float pow: both operands are
converted to doubles (`OverflowError` if either is out of range, base
first; `ZeroDivisionError` for a zero base), and the C library `pow` —
modelled as correctly rounded — produces the result double.  The
converted exponent is an integer-valued double, so its numerator is the
integer exponent actually raised to.  `float ** int` likewise goes
through float pow.  A float exponent generally has an irrational value
and is outside this model (`floatPowError`); a string operand is a
`TypeError`. -/
def pyPow : PyVal → PyVal → Except Err PyVal
  | .int a, .int b =>
      if 0 ≤ b then .ok (.int (a ^ b.toNat))
      else if a = 0 then .error .zeroDivisionError
      else
        match intToDouble a, intToDouble b with
        | none, _ => .error .overflowError
        | _, none => .error .overflowError
        | some x, some y =>
          match rnDouble (x ^ y.num) with
          | none => .error .overflowError
          | some r => .ok (.float r)
  | .float q, .int b =>
      if q = 0 ∧ b < 0 then .error .zeroDivisionError
      else
        match intToDouble b with
        | none => .error .overflowError
        | some y =>
          match rnDouble (q ^ y.num) with
          | none => .error .overflowError
          | some r => .ok (.float r)
  | .str _, _ => .error (.operandTypeError "**")
  | _, .str _ => .error (.operandTypeError "**")
  | _, .float _ => .error .floatPowError

/-- Body shared by the arithmetic builtins: `Integer(a.value OP b.value)`.
Attribute access on `a`, then on `b`, then the host operator. -/
def arithCall (op : PyVal → PyVal → Except Err PyVal) (a b : Entity) :
    Except Err Entity :=
  match getValue a with
  | .error e => .error e
  | .ok va =>
    match getValue b with
    | .error e => .error e
    | .ok vb =>
      match op va vb with
      | .error e => .error e
      | .ok r => .ok (.integer r)

/-- The Python function registered for a builtin, applied to the already
reduced arguments.  The wrong-argument-count branch models the `TypeError`
Python's call protocol raises when the argument tuple does not match the
function's parameters (the declared arity of every builtin is 2); it
carries the function name and both counts, as the Python message does.
`sum_of_squares` builds and returns the unevaluated term
`Call(Name("+"), Call(Name("^"), x, Integer(2)), Call(Name("^"), y, Integer(2)))`. -/
def applyBuiltin : BuiltinFn → List Entity → Env → Res
  | .add, [a, b], env => (arithCall pyAdd a b, env)
  | .add, args, env => (.error (.argCountError "add" 2 args.length), env)
  | .multiply, [a, b], env => (arithCall pyMul a b, env)
  | .multiply, args, env => (.error (.argCountError "multiply" 2 args.length), env)
  | .subtract, [a, b], env => (arithCall pySub a b, env)
  | .subtract, args, env => (.error (.argCountError "subtract" 2 args.length), env)
  | .power, [a, b], env => (arithCall pyPow a b, env)
  | .power, args, env => (.error (.argCountError "power" 2 args.length), env)
  | .sumOfSquares, [x, y], env =>
      (.ok (.call (.name "+")
        [.call (.name "^") [x, .integer (.int 2)],
         .call (.name "^") [y, .integer (.int 2)]]), env)
  | .sumOfSquares, args, env =>
      (.error (.argCountError "sum_of_squares" 2 args.length), env)

/-- `Function.call`'s argument evaluation: the generator
`(arg.reduce(runtime) for arg in args)` is forced in order by the `*`
unpacking before the function body runs, so every argument is fully
reduced, left to right, and the first failure aborts. -/
def reduceArgsWith (recur : Entity → Env → Res) :
    List Entity → Env → Except Err (List Entity) × Env
  | [], env => (.ok [], env)
  | a :: rest, env =>
    match recur a env with
    | (.error e, env₁) => (.error e, env₁)
    | (.ok v, env₁) =>
      match reduceArgsWith recur rest env₁ with
      | (.error e, env₂) => (.error e, env₂)
      | (.ok vs, env₂) => (.ok (v :: vs), env₂)

/-- Invocation of a fully reduced callee, `callee.call(runtime, *args)`:
`Function.call` reduces the arguments and applies its function; every
other class inherits `Entity.call`, which raises
`TypeError(f"Cannot call ...")` carrying the callee's `repr`, without
touching the arguments. -/
def callEntityWith (recur : Entity → Env → Res)
    (callee : Entity) (args : List Entity) (env : Env) : Res :=
  match callee with
  | .function _fname fn =>
    match reduceArgsWith recur args env with
    | (.error e, env₁) => (.error e, env₁)
    | (.ok vs, env₁) => applyBuiltin fn vs env₁
  | _ => (.error (.cannotCall (reprE callee)), env)

/-- One step of computation, `compute_one_step`, parameterized by the
full-reduction function it may invoke on sub-terms.  `Integer`, `String`
and `Function` return themselves; `Name` returns `runtime[self.name]`
as-is (raising `KeyError` on a missing key); `Call` fully reduces its
callee and invokes it on the *unevaluated* arguments. -/
def computeOneStepWith (recur : Entity → Env → Res)
    (t : Entity) (env : Env) : Res :=
  match t with
  | .integer _ => (.ok t, env)
  | .string _ => (.ok t, env)
  | .function _ _ => (.ok t, env)
  | .name n =>
    match env n with
    | none => (.error (.keyError n), env)
    | some b => (.ok b, env)
  | .call f args =>
    match recur f env with
    | (.error e, env₁) => (.error e, env₁)
    | (.ok ef, env₁) => callEntityWith recur ef args env₁

/-- Does the Python test `next_state is state` succeed, given the current
state and its provenance?  `Integer`, `String` and `Function` states
stepped to themselves; a `Name` state steps to the same object exactly
when the state itself was obtained from the binding it looks up (alias-free
environments); a `Call` state steps to a freshly constructed object. -/
def sameObject : Entity → Option String → Bool
  | .name n, prov => prov == some n
  | .call _ _, _ => false
  | _, _ => true

/-- Provenance of the next state produced from the given state: a `Name`
state's successor was obtained from the environment under the looked-up
key; all other successors are fresh. -/
def provOf : Entity → Option String
  | .name n => some n
  | _ => none

/-- The `while` loop of `Entity.reduce`: perform one step, return the
current state if the step produced the same object, iterate otherwise.
`fuel` bounds both loop iterations and recursion depth; exhaustion yields
the artificial error `noFuel`. -/
def reduceLoop : Nat → Entity → Option String → Env → Res
  | 0, _, _, env => (.error .noFuel, env)
  | fuel + 1, state, prov, env =>
    match computeOneStepWith (fun t e => reduceLoop fuel t none e) state env with
    | (.error e, env₁) => (.error e, env₁)
    | (.ok next, env₁) =>
      if sameObject state prov then (.ok state, env₁)
      else reduceLoop fuel next (provOf state) env₁

/-- `compute_one_step` with the fuel its nested `reduce` calls receive. -/
def computeOneStep (fuel : Nat) (t : Entity) (env : Env) : Res :=
  computeOneStepWith (fun t e => reduceLoop fuel t none e) t env

/-- `Entity.reduce(runtime)`: fully reduce an expression, starting from a
caller-supplied (hence provenance-free) term. -/
def reduceE (fuel : Nat) (t : Entity) (env : Env) : Res :=
  reduceLoop fuel t none env

/-- The builtin table `BUILT_IN_NAMES` as populated by the five
`@register` decorators at import time, used directly as the seed
environment (`dict(BUILT_IN_NAMES)`). -/
def BUILT_IN_NAMES : Env := fun k =>
  if k = "+" then some (.function "+" .add)
  else if k = "*" then some (.function "*" .multiply)
  else if k = "-" then some (.function "-" .subtract)
  else if k = "^" then some (.function "^" .power)
  else if k = "x^2+y^2" then some (.function "x^2+y^2" .sumOfSquares)
  else none

/-- The empty runtime dictionary. -/
def emptyEnv : Env := fun _ => none

/-- No builtin body writes to the runtime dictionary. -/
theorem applyBuiltin_env (fn : BuiltinFn) (args : List Entity) (env : Env) :
    (applyBuiltin fn args env).2 = env := by
  rcases args with _ | ⟨a, _ | ⟨b, _ | ⟨c, rest⟩⟩⟩ <;> cases fn <;> rfl

/-- Argument evaluation leaves the runtime dictionary untouched whenever
the reduction function it iterates does. -/
theorem reduceArgsWith_env (recur : Entity → Env → Res)
    (h : ∀ t e, (recur t e).2 = e) :
    ∀ (args : List Entity) (env : Env), (reduceArgsWith recur args env).2 = env := by
  intro args
  induction args with
  | nil => intro env; rfl
  | cons a rest ih =>
    intro env
    have h1 := h a env
    rcases hr : recur a env with ⟨res, env₁⟩
    rw [hr] at h1
    simp only at h1
    rw [h1] at hr
    cases res with
    | error e => simp [reduceArgsWith, hr]
    | ok v =>
      have h2 := ih env
      rcases hrr : reduceArgsWith recur rest env with ⟨res₂, env₂⟩
      rw [hrr] at h2
      simp only at h2
      rw [h2] at hrr
      cases res₂ with
      | error e => simp [reduceArgsWith, hr, hrr]
      | ok vs => simp [reduceArgsWith, hr, hrr]

/-- Callable invocation leaves the runtime dictionary untouched whenever
the reduction function it uses does. -/
theorem callEntityWith_env (recur : Entity → Env → Res)
    (h : ∀ t e, (recur t e).2 = e)
    (callee : Entity) (args : List Entity) (env : Env) :
    (callEntityWith recur callee args env).2 = env := by
  cases callee with
  | function fname fn =>
    have h1 := reduceArgsWith_env recur h args env
    rcases hr : reduceArgsWith recur args env with ⟨res, env₁⟩
    rw [hr] at h1
    simp only at h1
    rw [h1] at hr
    cases res with
    | error e => simp [callEntityWith, hr]
    | ok vs =>
      have h2 := applyBuiltin_env fn vs env
      simp [callEntityWith, hr, h2]
  | integer v => rfl
  | string s => rfl
  | name n => rfl
  | call f as => rfl

/-- A single computation step leaves the runtime dictionary untouched
whenever the reduction function it may invoke does. -/
theorem computeOneStepWith_env (recur : Entity → Env → Res)
    (h : ∀ t e, (recur t e).2 = e) (t : Entity) (env : Env) :
    (computeOneStepWith recur t env).2 = env := by
  cases t with
  | integer v => rfl
  | string s => rfl
  | function fname fn => rfl
  | name n => cases hn : env n <;> simp [computeOneStepWith, hn]
  | call f args =>
    have h1 := h f env
    rcases hr : recur f env with ⟨res, env₁⟩
    rw [hr] at h1
    simp only at h1
    rw [h1] at hr
    cases res with
    | error e => simp [computeOneStepWith, hr]
    | ok ef =>
      have h2 := callEntityWith_env recur h ef args env
      simp [computeOneStepWith, hr, h2]

/-- The reduction loop leaves the runtime dictionary untouched, whether it
succeeds, raises, or runs out of fuel. -/
theorem reduceLoop_env :
    ∀ (fuel : Nat) (state : Entity) (prov : Option String) (env : Env),
      (reduceLoop fuel state prov env).2 = env := by
  intro fuel
  induction fuel with
  | zero => intro state prov env; rfl
  | succ fuel ih =>
    intro state prov env
    have hrec : ∀ t e, ((fun t e => reduceLoop fuel t none e) t e).2 = e :=
      fun t e => ih t none e
    have h1 := computeOneStepWith_env _ hrec state env
    rcases hs : computeOneStepWith (fun t e => reduceLoop fuel t none e) state env
      with ⟨res, env₁⟩
    rw [hs] at h1
    simp only at h1
    rw [h1] at hs
    cases res with
    | error e => simp [reduceLoop, hs]
    | ok next =>
      by_cases hsame : sameObject state prov
      · simp [reduceLoop, hs, hsame]
      · simp [reduceLoop, hs, hsame, ih next (provOf state) env]

/-- Full reduction leaves the runtime dictionary untouched. -/
theorem reduceE_env (fuel : Nat) (t : Entity) (env : Env) :
    (reduceE fuel t env).2 = env :=
  reduceLoop_env fuel t none env

/-- A single `compute_one_step` leaves the runtime dictionary untouched. -/
theorem computeOneStep_env (fuel : Nat) (t : Entity) (env : Env) :
    (computeOneStep fuel t env).2 = env :=
  computeOneStepWith_env _ (fun t e => reduceLoop_env fuel t none e) t env

/-- C9: the environment is never mutated during a reduction sequence:
`reduce`, every single step it takes, and every builtin invocation return
the runtime dictionary exactly as they received it, whether the operation
succeeds or fails. -/
theorem reduce_never_mutates_env :
    (∀ (fuel : Nat) (t : Entity) (env : Env), (reduceE fuel t env).2 = env) ∧
    (∀ (fuel : Nat) (t : Entity) (env : Env), (computeOneStep fuel t env).2 = env) ∧
    (∀ (fn : BuiltinFn) (args : List Entity) (env : Env),
      (applyBuiltin fn args env).2 = env) :=
  ⟨reduceE_env, computeOneStep_env, applyBuiltin_env⟩

/-- C6: one reduction step on a `Name` looks its identifier up in the
environment; a missing key fails with the lookup error (`KeyError`, the
unbound-name failure, carrying the identifier), and a present key returns
the bound term exactly as stored, with no further reduction inside the
step.  In particular `reduce(Name("nope"), dict())` raises the unbound-name
error for "nope". -/
theorem name_step_lookup :
    (∀ (fuel : Nat) (n : String) (env : Env), env n = none →
      (computeOneStep fuel (.name n) env).1 = .error (.keyError n)) ∧
    (∀ (fuel : Nat) (n : String) (env : Env) (t : Entity), env n = some t →
      (computeOneStep fuel (.name n) env).1 = .ok t) ∧
    (reduceE 1 (.name "nope") emptyEnv).1 = .error (.keyError "nope") := by
  refine ⟨?_, ?_, rfl⟩
  · intro fuel n env h
    simp [computeOneStep, computeOneStepWith, h]
  · intro fuel n env t h
    simp [computeOneStep, computeOneStepWith, h]

/-- Witness for `name_step_lookup` at concrete inputs: the empty
environment has no binding for "nope", and an environment binding "u" to
the (further reducible) term `Name("answer")` returns that term as-is. -/
theorem name_step_lookup_witness :
    (computeOneStep 0 (.name "nope") emptyEnv).1 = .error (.keyError "nope") ∧
    (computeOneStep 0 (.name "u")
      (fun k => if k = "u" then some (.name "answer") else none)).1
        = .ok (.name "answer") :=
  ⟨name_step_lookup.1 0 "nope" emptyEnv rfl,
   name_step_lookup.2.1 0 "u" _ (.name "answer") (by simp)⟩

/-- C7: a call whose callee fully reduces to a non-callable value fails
with the not-callable error (the `TypeError` raised by `Entity.call`,
carrying the callee's `repr`) for every argument list whatsoever — in
particular even for arguments whose own reduction would fail — so no
argument is reduced first. -/
theorem non_callable_fails_without_touching_args :
    ∀ (fuel : Nat) (f : Entity) (env : Env) (v : Entity) (args : List Entity),
      (reduceE fuel f env).1 = .ok v →
      (∀ fname fn, v ≠ .function fname fn) →
      (reduceE (fuel + 1) (.call f args) env).1
        = .error (.cannotCall (reprE v)) := by
  intro fuel f env v args h hv
  have henv := reduceE_env fuel f env
  rcases hr : reduceE fuel f env with ⟨res, env₁⟩
  rw [hr] at h henv
  simp only at h henv
  rw [h, henv] at hr
  simp only [reduceE] at hr ⊢
  rw [reduceLoop]
  simp only [computeOneStepWith, hr]
  cases v with
  | function fname fn => exact absurd rfl (hv fname fn)
  | integer w => simp [callEntityWith]
  | string s => simp [callEntityWith]
  | name n => simp [callEntityWith]
  | call g as => simp [callEntityWith]

/-- Witness for `non_callable_fails_without_touching_args`: the callee
`Integer(7)` reduces to itself, is not callable, and the call fails with
the not-callable error even though its argument `Name("nope")` is unbound
(so reducing it first would instead raise the lookup error). -/
theorem non_callable_witness :
    (reduceE 2 (.call (.integer (.int 7)) [.name "nope"]) BUILT_IN_NAMES).1
      = .error (.cannotCall (reprE (.integer (.int 7)))) :=
  non_callable_fails_without_touching_args 1 (.integer (.int 7)) BUILT_IN_NAMES
    (.integer (.int 7)) [.name "nope"] rfl (fun fname fn h => Entity.noConfusion h)

/-- C1: the arithmetic builtins compute with exact integer arithmetic: for
all integer payloads, `(+ a b)`, `(- a b)` and `(* a b)` fully reduce to
the exact sum, difference and product, `(^ a b)` with a non-negative
exponent to the exact power, and in particular `(+ 2 5)` reduces to
`Integer(7)` and `(- 2 5)` to `Integer(-3)` against the builtin-seeded
environment. -/
theorem arith_builtins_exact :
    (∀ a b : Int,
      (reduceE 6 (.call (.name "+") [.integer (.int a), .integer (.int b)])
        BUILT_IN_NAMES).1 = .ok (.integer (.int (a + b)))) ∧
    (∀ a b : Int,
      (reduceE 6 (.call (.name "-") [.integer (.int a), .integer (.int b)])
        BUILT_IN_NAMES).1 = .ok (.integer (.int (a - b)))) ∧
    (∀ a b : Int,
      (reduceE 6 (.call (.name "*") [.integer (.int a), .integer (.int b)])
        BUILT_IN_NAMES).1 = .ok (.integer (.int (a * b)))) ∧
    (∀ a b : Int, 0 ≤ b →
      (reduceE 6 (.call (.name "^") [.integer (.int a), .integer (.int b)])
        BUILT_IN_NAMES).1 = .ok (.integer (.int (a ^ b.toNat)))) ∧
    (reduceE 6 (.call (.name "+") [.integer (.int 2), .integer (.int 5)])
      BUILT_IN_NAMES).1 = .ok (.integer (.int 7)) ∧
    (reduceE 6 (.call (.name "-") [.integer (.int 2), .integer (.int 5)])
      BUILT_IN_NAMES).1 = .ok (.integer (.int (-3))) := by
  refine ⟨fun a b => rfl, fun a b => rfl, fun a b => rfl, ?_, rfl, rfl⟩
  intro a b hb
  obtain ⟨n, rfl⟩ := Int.eq_ofNat_of_zero_le hb
  rfl

/-- Witness for `arith_builtins_exact` at the concrete input `(^ 2 3)`,
whose exponent is non-negative. -/
theorem arith_builtins_exact_witness :
    0 ≤ (3 : Int) ∧
    (reduceE 6 (.call (.name "^") [.integer (.int 2), .integer (.int 3)])
      BUILT_IN_NAMES).1 = .ok (.integer (.int 8)) :=
  ⟨by norm_num, arith_builtins_exact.2.2.2.1 2 3 (by norm_num)⟩

/-- C2: the builtin `x^2+y^2` does not compute a primitive value; applied
to any two (already reduced) entities it returns the unevaluated call
`(+ (^ x 2) (^ y 2))`, which the driver keeps reducing, so that on integer
payloads the whole expression fully reduces to `Integer(x^2 + y^2)` — in
particular `(x^2+y^2 2 5)` reduces to `Integer(29)` against the
builtin-seeded environment. -/
theorem sum_of_squares_expands :
    (∀ (env : Env) (x y : Entity),
      applyBuiltin .sumOfSquares [x, y] env
        = (.ok (.call (.name "+")
            [.call (.name "^") [x, .integer (.int 2)],
             .call (.name "^") [y, .integer (.int 2)]]), env)) ∧
    (∀ x y : Int,
      (reduceE 10 (.call (.name "x^2+y^2")
          [.integer (.int x), .integer (.int y)]) BUILT_IN_NAMES).1
        = .ok (.integer (.int (x ^ 2 + y ^ 2)))) ∧
    (reduceE 10 (.call (.name "x^2+y^2")
        [.integer (.int 2), .integer (.int 5)]) BUILT_IN_NAMES).1
      = .ok (.integer (.int 29)) :=
  ⟨fun env x y => rfl, fun x y => rfl, rfl⟩

/-- Counterexample to C4 as stated: the claim predicts an arity failure
(expected 2, actual 1) raised *before* any argument is reduced, so
`(+ nope)` against the builtin-seeded environment would have to fail with
the arity error; the code reduces the lone argument first and therefore
fails with the lookup error for the unbound name "nope" instead. -/
theorem arity_check_not_first_cex :
    (reduceE 6 (.call (.name "+") [.name "nope"]) BUILT_IN_NAMES).1
      = .error (.keyError "nope") := rfl

/-- C4 as amended: a wrong argument count makes the invocation fail with
the wrong-argument-count failure (Python's call-protocol `TypeError`,
which names the function and determines both counts), but only *after*
every argument has been fully reduced, left to right — an argument whose
reduction fails preempts the arity failure.  In particular
`(+ 1)` fails with expected 2, actual 1, and `(+ v1 v2 v3)` with
expected 2, actual 3, for all integer payloads. -/
theorem arity_failure_after_arg_reduction :
    ((reduceE 6 (.call (.name "+") [.integer (.int 1)]) BUILT_IN_NAMES).1
      = .error (.argCountError "add" 2 1)) ∧
    (∀ v₁ v₂ v₃ : Int,
      (reduceE 8 (.call (.name "+")
          [.integer (.int v₁), .integer (.int v₂), .integer (.int v₃)])
        BUILT_IN_NAMES).1 = .error (.argCountError "add" 2 3)) ∧
    ((reduceE 6 (.call (.name "+") [.name "nope", .integer (.int 1)])
        BUILT_IN_NAMES).1 = .error (.keyError "nope")) :=
  ⟨rfl, fun v₁ v₂ v₃ => rfl, rfl⟩

/-- Counterexample to C5 as stated: the claim predicts that every evaluated
argument is checked against the declared `Integer` kind, so
`(+ "a" "b")` would have to fail with a kind-mismatch error at position 1;
the code performs no such check and happily applies the host `+`,
returning an `Integer` term wrapping the *string* "ab". -/
theorem no_kind_check_cex :
    (reduceE 8 (.call (.name "+") [.string "a", .string "b"]) BUILT_IN_NAMES).1
      = .ok (.integer (.str "ab")) := rfl

/-- C5 as amended: no per-argument kind check exists.  After all arguments
are reduced, the builtin body applies the host operator to the `value`
payloads: incompatible payloads fail with the host operand `TypeError`
(which carries the operand types but no argument position) — in particular
`(+ 1 "x")` fails that way — while two string payloads succeed and produce
an `Integer` term wrapping their concatenation. -/
theorem no_argument_kind_check :
    ((reduceE 8 (.call (.name "+") [.integer (.int 1), .string "x"])
        BUILT_IN_NAMES).1 = .error (.operandTypeError "+")) ∧
    (∀ s t : String,
      (reduceE 8 (.call (.name "+") [.string s, .string t]) BUILT_IN_NAMES).1
        = .ok (.integer (.str (s ++ t)))) :=
  ⟨rfl, fun s t => rfl⟩

/-- Shape of a term that `Entity.reduce` can return: `Integer`, `String`
and `Function` states step to themselves; a `Name` state can only be a
fixed point when it was obtained from the binding it looks up, i.e. when
the environment binds its identifier to that very `Name`; a `Call` state
never steps to the same object. -/
def Reduced (env : Env) : Entity → Prop
  | .name n => env n = some (.name n)
  | .call _ _ => False
  | _ => True

/-- Every successful run of the reduction loop ends in a `Reduced` state,
given the provenance invariant: a provenance key is bound to the current
state. -/
theorem reduceLoop_ok_reduced :
    ∀ (fuel : Nat) (state : Entity) (prov : Option String) (env : Env)
      (r : Entity),
      (∀ k, prov = some k → env k = some state) →
      (reduceLoop fuel state prov env).1 = .ok r → Reduced env r := by
  intro fuel
  induction fuel with
  | zero => intro state prov env r hprov h; simp [reduceLoop] at h
  | succ fuel ih =>
    intro state prov env r hprov h
    have henv := computeOneStepWith_env (fun t e => reduceLoop fuel t none e)
      (fun t e => reduceLoop_env fuel t none e) state env
    rcases hs : computeOneStepWith (fun t e => reduceLoop fuel t none e) state env
      with ⟨res, env₁⟩
    rw [hs] at henv
    simp only at henv
    rw [henv] at hs
    rw [reduceLoop] at h
    rw [hs] at h
    cases res with
    | error e => simp at h
    | ok next =>
      simp only at h
      by_cases hsame : sameObject state prov
      · rw [if_pos hsame] at h
        simp only at h
        cases h
        cases state with
        | integer v => trivial
        | string s => trivial
        | function fname fn => trivial
        | name n =>
          have hp : prov = some n := by
            simpa [sameObject] using hsame
          have := hprov n hp
          simpa [Reduced] using this
        | call f as => simp [sameObject] at hsame
      · rw [if_neg hsame] at h
        refine ih next (provOf state) env r ?_ h
        intro k hk
        cases state with
        | integer v => simp [sameObject] at hsame
        | string s => simp [sameObject] at hsame
        | function fname fn => simp [sameObject] at hsame
        | call f as => simp [provOf] at hk
        | name m =>
          have hm : k = m := by simpa [provOf] using hk.symm
          subst hm
          rw [computeOneStepWith] at hs
          cases he : env k with
          | none => rw [he] at hs; simp at hs
          | some b =>
            rw [he] at hs
            simp only at hs
            have hb : b = next := by
              have := congrArg Prod.fst hs
              simpa using this
            rw [hb]

/-- A `Reduced` state fully reduces to itself with any fuel of at least 2:
`Integer`, `String` and `Function` need one loop iteration; a `Name` bound
to itself needs two, because the first lookup hands back the environment's
own object and only the second lookup returns it again (the identity
test). -/
theorem reduced_self_reduce :
    ∀ (r : Entity) (env : Env), Reduced env r →
      ∀ fuel, 2 ≤ fuel → (reduceE fuel r env).1 = .ok r := by
  intro r env hr fuel hfuel
  obtain ⟨f, rfl⟩ : ∃ f, fuel = f + 2 := ⟨fuel - 2, by omega⟩
  cases r with
  | integer v => simp [reduceE, reduceLoop, computeOneStepWith, sameObject]
  | string s => simp [reduceE, reduceLoop, computeOneStepWith, sameObject]
  | function fname fn => simp [reduceE, reduceLoop, computeOneStepWith, sameObject]
  | call g as => exact absurd hr (by simp [Reduced])
  | name n =>
    have h : env n = some (.name n) := hr
    simp [reduceE, reduceLoop, computeOneStepWith, h, sameObject, provOf]

/-- C3: full reduction is idempotent — whenever `reduce(t, env)` succeeds
with result `r`, reducing `r` again against the same environment succeeds
and returns `r` itself (any fuel of at least 2 suffices for the second
run). -/
theorem reduce_idempotent :
    ∀ (fuel : Nat) (t : Entity) (env : Env) (r : Entity),
      (reduceE fuel t env).1 = .ok r →
      ∀ fuel₂, 2 ≤ fuel₂ → (reduceE fuel₂ r env).1 = .ok r := by
  intro fuel t env r h fuel₂ h₂
  exact reduced_self_reduce r env
    (reduceLoop_ok_reduced fuel t none env r (by intro k hk; cases hk) h)
    fuel₂ h₂

/-- Witness for `reduce_idempotent`: `(+ 2 5)` reduces to `Integer(7)`,
and reducing `Integer(7)` again returns it unchanged. -/
theorem reduce_idempotent_witness :
    (reduceE 2 (.integer (.int 7)) BUILT_IN_NAMES).1 = .ok (.integer (.int 7)) :=
  reduce_idempotent 6 (.call (.name "+") [.integer (.int 2), .integer (.int 5)])
    BUILT_IN_NAMES (.integer (.int 7)) rfl 2 (by norm_num)

/-- Counterexample to C8 as stated: two separately constructed `Name`
terms with the same identifier are structurally equal, yet Python's `==`
on them is the inherited object-identity comparison and yields `False`,
so not every variant supports structural equality. -/
theorem name_structural_eq_false_cex :
    pyEq (.name "a") (.name "a") = false := rfl

/-- C8 as amended: only `Integer` and `String` compare structurally (by
payload); `Name`, `Call` and `Function` inherit object identity, so
distinct structurally-equal instances compare unequal.  The reduction
engine's fixed-point test is likewise object identity — a step returning
the very same object — not a structural comparison: a `Name` bound to a
structurally equal `Name` is only recognized as a fixed point on the
second loop iteration, when the lookup returns the same dictionary entry
again (one iteration of fuel does not suffice, as it would under a
structural test). -/
theorem equality_and_fixed_point_identity :
    (∀ v w : Int,
      (pyEq (.integer (.int v)) (.integer (.int w)) = true) ↔ v = w) ∧
    (∀ s t : String, (pyEq (.string s) (.string t) = true) ↔ s = t) ∧
    (∀ n : String, pyEq (.name n) (.name n) = false) ∧
    (∀ (f : Entity) (args : List Entity), pyEq (.call f args) (.call f args) = false) ∧
    (∀ (fname : String) (fn : BuiltinFn),
      pyEq (.function fname fn) (.function fname fn) = false) ∧
    (∀ (env : Env) (n : String), env n = some (.name n) →
      (reduceE 2 (.name n) env).1 = .ok (.name n) ∧
      (reduceE 1 (.name n) env).1 = .error .noFuel) := by
  refine ⟨?_, ?_, fun n => rfl, fun f args => rfl, fun fname fn => rfl, ?_⟩
  · intro v w; simp [pyEq, pyValEq]
  · intro s t; simp [pyEq]
  · intro env n h
    constructor
    · simp [reduceE, reduceLoop, computeOneStepWith, h, sameObject, provOf]
    · simp [reduceE, reduceLoop, computeOneStepWith, h, sameObject, provOf]

/-- Witness for `equality_and_fixed_point_identity` with the environment
binding "a" to `Name("a")`. -/
theorem equality_and_fixed_point_identity_witness :
    (reduceE 2 (.name "a")
      (fun k => if k = "a" then some (.name "a") else none)).1 = .ok (.name "a") ∧
    (reduceE 1 (.name "a")
      (fun k => if k = "a" then some (.name "a") else none)).1 = .error .noFuel :=
  equality_and_fixed_point_identity.2.2.2.2.2
    (fun k => if k = "a" then some (.name "a") else none) "a" (by simp)


/-- The halving recursion computes the floor base-2 logarithm. -/
theorem nlog2Go_spec :
    ∀ (fuel n : Nat), 1 ≤ n → n ≤ fuel →
      2 ^ nlog2Go fuel n ≤ n ∧ n < 2 ^ (nlog2Go fuel n + 1) := by
  intro fuel
  induction fuel with
  | zero => intro n h1 h2; omega
  | succ fuel ih =>
    intro n h1 h2
    by_cases hn : n ≤ 1
    · have hone : n = 1 := by omega
      subst hone
      simp [nlog2Go]
    · have e1 : nlog2Go (fuel + 1) n = nlog2Go fuel (n / 2) + 1 := by
        simp [nlog2Go, hn]
      rw [e1]
      obtain ⟨ga, gb⟩ := ih (n / 2) (by omega) (by omega)
      simp only [pow_succ] at gb ⊢
      omega

/-- `nlog2` of a positive natural is its floor base-2 logarithm. -/
theorem nlog2_spec (n : Nat) (h : 1 ≤ n) :
    2 ^ nlog2 n ≤ n ∧ n < 2 ^ (nlog2 n + 1) :=
  nlog2Go_spec n n h le_rfl

/-- `expOf` satisfies its characterizing property. -/
theorem expOf_spec (q : Rat) (hq : q ≠ 0) :
    (2 : Rat) ^ expOf q ≤ |q| ∧ |q| < (2 : Rat) ^ (expOf q + 1) := by
  have habs : 0 < |q| := abs_pos.mpr hq
  rw [expOf]
  by_cases h1 : 1 ≤ |q|
  · rw [if_pos h1]
    have hm1 : 1 ≤ Int.floor |q| := Int.le_floor.mpr (by exact_mod_cast h1)
    have hmn : ((Int.floor |q|).toNat : Int) = Int.floor |q| :=
      Int.toNat_of_nonneg (by omega)
    obtain ⟨ga, gb⟩ := nlog2_spec (Int.floor |q|).toNat (by omega)
    set g := nlog2 (Int.floor |q|).toNat with hg
    have gaQ : (2 : Rat) ^ (g : Int) ≤ |q| := by
      rw [zpow_natCast]
      calc (2 : Rat) ^ g = ((2 ^ g : Nat) : Rat) := by push_cast; ring
        _ ≤ ((Int.floor |q|).toNat : Rat) := by exact_mod_cast ga
        _ = ((Int.floor |q| : Int) : Rat) := by exact_mod_cast congrArg Int.cast hmn
        _ ≤ |q| := Int.floor_le |q|
    have gbQ : |q| < (2 : Rat) ^ ((g : Int) + 1) := by
      have gb2 : Int.floor |q| + 1 ≤ 2 ^ (g + 1) := by
        have : Int.floor |q| < ((2 ^ (g + 1) : Nat) : Int) := by
          rw [← hmn]; exact_mod_cast gb
        push_cast at this
        omega
      calc |q| < Int.floor |q| + 1 := Int.lt_floor_add_one |q|
        _ ≤ ((2 ^ (g + 1) : Int) : Rat) := by exact_mod_cast gb2
        _ = (2 : Rat) ^ ((g : Int) + 1) := by
            push_cast
            rw [← zpow_natCast (2 : Rat) (g + 1)]
            push_cast
            ring_nf
    exact ⟨gaQ, gbQ⟩
  · rw [if_neg h1]
    push_neg at h1
    have hr1 : 1 < |q|⁻¹ := by
      rw [lt_inv_comm₀ zero_lt_one habs]
      simpa using h1
    have hm1 : 1 ≤ Int.floor |q|⁻¹ := Int.le_floor.mpr (by exact_mod_cast le_of_lt hr1)
    have hmn : ((Int.floor |q|⁻¹).toNat : Int) = Int.floor |q|⁻¹ :=
      Int.toNat_of_nonneg (by omega)
    obtain ⟨ga, gb⟩ := nlog2_spec (Int.floor |q|⁻¹).toNat (by omega)
    set g := nlog2 (Int.floor |q|⁻¹).toNat with hg
    have hrpos : 0 < |q|⁻¹ := inv_pos.mpr habs
    have gaQ : (2 : Rat) ^ (g : Int) ≤ |q|⁻¹ := by
      rw [zpow_natCast]
      calc (2 : Rat) ^ g = ((2 ^ g : Nat) : Rat) := by push_cast; ring
        _ ≤ ((Int.floor |q|⁻¹).toNat : Rat) := by exact_mod_cast ga
        _ = ((Int.floor |q|⁻¹ : Int) : Rat) := by exact_mod_cast congrArg Int.cast hmn
        _ ≤ |q|⁻¹ := Int.floor_le |q|⁻¹
    have gbQ : |q|⁻¹ < (2 : Rat) ^ ((g : Int) + 1) := by
      have gb2 : Int.floor |q|⁻¹ + 1 ≤ 2 ^ (g + 1) := by
        have : Int.floor |q|⁻¹ < ((2 ^ (g + 1) : Nat) : Int) := by
          rw [← hmn]; exact_mod_cast gb
        push_cast at this
        omega
      calc |q|⁻¹ < Int.floor |q|⁻¹ + 1 := Int.lt_floor_add_one |q|⁻¹
        _ ≤ ((2 ^ (g + 1) : Int) : Rat) := by exact_mod_cast gb2
        _ = (2 : Rat) ^ ((g : Int) + 1) := by
            push_cast
            rw [← zpow_natCast (2 : Rat) (g + 1)]
            push_cast
            ring_nf
    have hup : |q| ≤ (2 : Rat) ^ (-(g : Int)) := by
      rw [zpow_neg]
      calc |q| = (|q|⁻¹)⁻¹ := (inv_inv |q|).symm
        _ ≤ ((2 : Rat) ^ (g : Int))⁻¹ := by
            apply inv_anti₀ (zpow_pos (by norm_num) _) gaQ
    have hlo : (2 : Rat) ^ (-(g : Int) - 1) < |q| := by
      have : (2 : Rat) ^ (-(g : Int) - 1) = ((2 : Rat) ^ ((g : Int) + 1))⁻¹ := by
        rw [← zpow_neg]
        ring_nf
      rw [this]
      calc ((2 : Rat) ^ ((g : Int) + 1))⁻¹ < (|q|⁻¹)⁻¹ := by
            apply inv_strictAnti₀ hrpos gbQ
        _ = |q| := inv_inv |q|
    by_cases h2 : (2 : Rat) ^ (-(g : Int)) ≤ |q|
    · rw [if_pos h2]
      refine ⟨h2, ?_⟩
      calc |q| ≤ (2 : Rat) ^ (-(g : Int)) := hup
        _ < (2 : Rat) ^ (-(g : Int) + 1) := by
            apply zpow_lt_zpow_right₀ (by norm_num)
            omega
    · rw [if_neg h2]
      push_neg at h2
      constructor
      · exact le_of_lt hlo
      · have : -(g : Int) - 1 + 1 = -(g : Int) := by ring
        rw [this]
        exact h2

/-- The binary exponent is determined by its characterizing property. -/
theorem expOf_eq (q : Rat) (hq : q ≠ 0) (e : Int)
    (h1 : (2 : Rat) ^ e ≤ |q|) (h2 : |q| < (2 : Rat) ^ (e + 1)) : expOf q = e := by
  obtain ⟨g1, g2⟩ := expOf_spec q hq
  by_contra hne
  rcases lt_or_gt_of_ne hne with hlt | hgt
  · have : (2 : Rat) ^ (expOf q + 1) ≤ 2 ^ e :=
      zpow_le_zpow_right₀ (by norm_num) (by omega)
    linarith
  · have : (2 : Rat) ^ (e + 1) ≤ 2 ^ expOf q :=
      zpow_le_zpow_right₀ (by norm_num) (by omega)
    linarith

/-- Rounding to the nearest integer moves a rational by at most one half. -/
theorem roundHalfEven_err (q : Rat) : |(roundHalfEven q : Rat) - q| ≤ 1 / 2 := by
  have hf1 : (Int.floor q : Rat) ≤ q := Int.floor_le q
  have hf2 : q < (Int.floor q : Rat) + 1 := Int.lt_floor_add_one q
  rw [roundHalfEven]
  split_ifs with h1 h2 h3 <;> rw [abs_le] <;> constructor <;> push_cast <;> linarith

/-- An integer rounds to itself. -/
theorem roundHalfEven_intCast (m : Int) : roundHalfEven (m : Rat) = m := by
  rw [roundHalfEven, Int.floor_intCast]
  norm_num

/-- Rounding never moves below the floor. -/
theorem roundHalfEven_ge_floor (q : Rat) : Int.floor q ≤ roundHalfEven q := by
  rw [roundHalfEven]
  split_ifs <;> omega

/-- A rational at or above an even integer minus one half rounds to at
least that integer (ties go to the even side). -/
theorem roundHalfEven_big (q : Rat) (N : Int) (hN : N % 2 = 0)
    (h : (N : Rat) - 1 / 2 ≤ q) : N ≤ roundHalfEven q := by
  by_cases hfl : N ≤ Int.floor q
  · exact le_trans hfl (roundHalfEven_ge_floor q)
  · push_neg at hfl
    have hfeq : Int.floor q = N - 1 := by
      have : (N - 1 : Int) ≤ Int.floor q := Int.le_floor.mpr (by push_cast; linarith)
      omega
    rw [roundHalfEven, hfeq]
    have hr : (1 : Rat) / 2 ≤ q - ((N - 1 : Int) : Rat) := by push_cast; linarith
    split_ifs with h1 h2 h3
    · exfalso; linarith
    · omega
    · exfalso; omega
    · omega

/-- A rational of magnitude at most one half rounds to zero (one half
itself ties to the even neighbour zero). -/
theorem roundHalfEven_tiny (q : Rat) (h : |q| ≤ 1 / 2) : roundHalfEven q = 0 := by
  rw [abs_le] at h
  obtain ⟨hl, hr⟩ := h
  by_cases hq : 0 ≤ q
  · have hfl : Int.floor q = 0 := by
      rw [Int.floor_eq_zero_iff]
      constructor
      · exact hq
      · linarith
    rw [roundHalfEven, hfl]
    split_ifs with h1 h2 h3
    · rfl
    · exfalso; push_cast at h2; linarith
    · rfl
    · exfalso; omega
  · push_neg at hq
    have hfl : Int.floor q = -1 := by
      rw [Int.floor_eq_iff]
      constructor
      · push_cast; linarith
      · push_cast; linarith
    rw [roundHalfEven, hfl]
    split_ifs with h1 h2 h3
    · exfalso; push_cast at h1; linarith
    · omega
    · exfalso; omega
    · omega

/-- A natural power of two, as an integer-exponent power of the rational
two. -/
theorem two_zpow_natCast (n : Nat) : (2 : Rat) ^ (n : Int) = ((2 ^ n : Int) : Rat) := by
  rw [zpow_natCast]
  push_cast
  ring

/-- Absolute value commutes with integer powers over the rationals. -/
theorem abs_zpow_rat (a : Rat) (b : Int) : |a ^ b| = |a| ^ b := by
  rcases le_or_lt 0 b with hb | hb
  · obtain ⟨n, rfl⟩ := Int.eq_ofNat_of_zero_le hb
    rw [zpow_natCast, zpow_natCast, abs_pow]
  · obtain ⟨n, rfl⟩ : ∃ n : Nat, b = -(n : Int) := ⟨(-b).toNat, by omega⟩
    rw [zpow_neg, zpow_neg, zpow_natCast, zpow_natCast, abs_inv, abs_pow]

/-- Rounding to a double moves a value by at most half an ulp of the
chosen grid. -/
theorem rnVal_err (q : Rat) : |rnVal q - q| ≤ 2 ^ (-kOf q - 1) := by
  have h := roundHalfEven_err (q * 2 ^ kOf q)
  have hz : (2 : Rat) ^ kOf q * 2 ^ (-kOf q) = 1 := by
    rw [← zpow_add₀ (by norm_num : (2 : Rat) ≠ 0)]
    simp
  have hrw : rnVal q - q
      = ((roundHalfEven (q * 2 ^ kOf q) : Rat) - q * 2 ^ kOf q) * 2 ^ (-kOf q) := by
    rw [rnVal, sub_mul, mul_assoc, hz, mul_one]
  rw [hrw, abs_mul, abs_of_pos (zpow_pos (by norm_num : (0 : Rat) < 2) (-kOf q))]
  calc |(roundHalfEven (q * 2 ^ kOf q) : Rat) - q * 2 ^ kOf q| * 2 ^ (-kOf q)
      ≤ (1 / 2) * 2 ^ (-kOf q) :=
        mul_le_mul_of_nonneg_right h (le_of_lt (zpow_pos (by norm_num) _))
    _ = 2 ^ (-kOf q - 1) := by
        rw [show -kOf q - 1 = -kOf q + -1 by ring,
            zpow_add₀ (by norm_num : (2 : Rat) ≠ 0), zpow_neg_one]
        ring

/-- A nonzero value of magnitude in `(2 ^ (-1075), 1/2]` rounds to a
nonzero double of magnitude below 1 (no overflow, no underflow to
zero). -/
theorem rnDouble_small (q : Rat) (hq : q ≠ 0) (hup : |q| ≤ 1 / 2)
    (hlo : (2 : Rat) ^ (-1075 : Int) < |q|) :
    rnDouble q = some (rnVal q) ∧ 0 < |rnVal q| ∧ |rnVal q| < 1 := by
  obtain ⟨g1, g2⟩ := expOf_spec q hq
  have he1 : expOf q ≤ -1 := by
    by_contra hc
    push_neg at hc
    have h0 : (2 : Rat) ^ (0 : Int) ≤ 2 ^ expOf q :=
      zpow_le_zpow_right₀ (by norm_num) (by omega)
    simp at h0
    linarith
  have herr := rnVal_err q
  have hk1 : (2 : Rat) ^ (-kOf q - 1) < |q| := by
    rw [kOf]
    by_cases hsub : expOf q < -1022
    · rw [if_pos hsub]
      calc (2 : Rat) ^ (-(1074 : Int) - 1) = 2 ^ (-1075 : Int) := by norm_num
        _ < |q| := hlo
    · rw [if_neg hsub]
      calc (2 : Rat) ^ (-(52 - expOf q) - 1) < 2 ^ expOf q := by
            apply zpow_lt_zpow_right₀ (by norm_num)
            omega
        _ ≤ |q| := g1
  have hk2 : (2 : Rat) ^ (-kOf q - 1) ≤ 2 ^ (-54 : Int) := by
    rw [kOf]
    by_cases hsub : expOf q < -1022
    · rw [if_pos hsub]
      apply zpow_le_zpow_right₀ (by norm_num)
      omega
    · rw [if_neg hsub]
      apply zpow_le_zpow_right₀ (by norm_num)
      omega
  have habs1 : |q| - |rnVal q| ≤ |rnVal q - q| := by
    calc |q| - |rnVal q| ≤ |q - rnVal q| := abs_sub_abs_le_abs_sub q (rnVal q)
      _ = |rnVal q - q| := abs_sub_comm q (rnVal q)
  have habs2 : |rnVal q| - |q| ≤ |rnVal q - q| := abs_sub_abs_le_abs_sub _ _
  have hvpos : 0 < |rnVal q| := by linarith
  have h54 : (2 : Rat) ^ (-54 : Int) < 1 / 2 := by
    calc (2 : Rat) ^ (-54 : Int) < 2 ^ (-1 : Int) := by
          apply zpow_lt_zpow_right₀ (by norm_num)
          omega
      _ = 1 / 2 := by rw [zpow_neg_one]; norm_num
  have hvlt : |rnVal q| < 1 := by linarith
  have hbig : |rnVal q| < 2 ^ (1024 : Int) := by
    calc |rnVal q| < 1 := hvlt
      _ = (2 : Rat) ^ (0 : Int) := by norm_num
      _ < 2 ^ (1024 : Int) := by
          apply zpow_lt_zpow_right₀ (by norm_num)
          omega
  exact ⟨by rw [rnDouble, if_neg hq, if_pos hbig], hvpos, hvlt⟩

/-- Integers of magnitude below `2 ^ 53` convert to doubles exactly. -/
theorem rnDouble_intCast (a : Int) (ha : a ≠ 0) (hsmall : |a| < 2 ^ 53) :
    rnDouble (a : Rat) = some (a : Rat) := by
  have hq : (a : Rat) ≠ 0 := Int.cast_ne_zero.mpr ha
  obtain ⟨g1, g2⟩ := expOf_spec (a : Rat) hq
  have hone : (1 : Rat) ≤ |(a : Rat)| := by
    rw [← Int.cast_abs]
    exact_mod_cast (by have := abs_pos.mpr ha; omega : (1 : Int) ≤ |a|)
  have h53 : |(a : Rat)| < 2 ^ (53 : Int) := by
    rw [← Int.cast_abs]
    calc ((|a| : Int) : Rat) < ((2 ^ 53 : Int) : Rat) := by exact_mod_cast hsmall
      _ = 2 ^ (53 : Int) := (two_zpow_natCast 53).symm
  have he0 : 0 ≤ expOf (a : Rat) := by
    by_contra hc
    push_neg at hc
    have : (2 : Rat) ^ (expOf (a : Rat) + 1) ≤ 2 ^ (0 : Int) :=
      zpow_le_zpow_right₀ (by norm_num) (by omega)
    simp at this
    linarith
  have he53 : expOf (a : Rat) ≤ 52 := by
    by_contra hc
    push_neg at hc
    have : (2 : Rat) ^ (53 : Int) ≤ 2 ^ expOf (a : Rat) :=
      zpow_le_zpow_right₀ (by norm_num) (by omega)
    linarith
  have hk : kOf (a : Rat) = 52 - expOf (a : Rat) := by
    rw [kOf, if_neg (by omega)]
  have hknn : 0 ≤ kOf (a : Rat) := by omega
  have hkn : ((kOf (a : Rat)).toNat : Int) = kOf (a : Rat) := Int.toNat_of_nonneg hknn
  have ht : (a : Rat) * 2 ^ kOf (a : Rat)
      = ((a * 2 ^ (kOf (a : Rat)).toNat : Int) : Rat) := by
    push_cast
    rw [← zpow_natCast (2 : Rat) (kOf (a : Rat)).toNat, hkn]
  have hv : rnVal (a : Rat) = (a : Rat) := by
    rw [rnVal, ht, roundHalfEven_intCast]
    push_cast
    rw [← zpow_natCast (2 : Rat) (kOf (a : Rat)).toNat, hkn, mul_assoc,
        ← zpow_add₀ (by norm_num : (2 : Rat) ≠ 0)]
    simp
  have hbig : |rnVal (a : Rat)| < 2 ^ (1024 : Int) := by
    rw [hv]
    calc |(a : Rat)| < 2 ^ (53 : Int) := h53
      _ < 2 ^ (1024 : Int) := by
          apply zpow_lt_zpow_right₀ (by norm_num)
          omega
  rw [rnDouble, if_neg hq, if_pos hbig, hv]

/-- Values of magnitude at most half the smallest subnormal round to
zero. -/
theorem rnDouble_tiny (q : Rat) (h : |q| ≤ (2 : Rat) ^ (-1075 : Int)) :
    rnDouble q = some 0 := by
  by_cases hq : q = 0
  · rw [hq, rnDouble, if_pos rfl]
  · obtain ⟨g1, g2⟩ := expOf_spec q hq
    have he : expOf q < -1022 := by
      by_contra hc
      push_neg at hc
      have h1 : (2 : Rat) ^ (-1022 : Int) ≤ 2 ^ expOf q :=
        zpow_le_zpow_right₀ (by norm_num) hc
      have h2 : (2 : Rat) ^ (-1075 : Int) < 2 ^ (-1022 : Int) := by
        apply zpow_lt_zpow_right₀ (by norm_num)
        omega
      linarith
    have hk : kOf q = 1074 := by rw [kOf, if_pos he]
    have habs : |q * 2 ^ kOf q| ≤ 1 / 2 := by
      rw [abs_mul, abs_of_pos (zpow_pos (by norm_num : (0:Rat) < 2) (kOf q)), hk]
      calc |q| * 2 ^ (1074 : Int) ≤ 2 ^ (-1075 : Int) * 2 ^ (1074 : Int) :=
            mul_le_mul_of_nonneg_right h (le_of_lt (zpow_pos (by norm_num) _))
        _ = 2 ^ (-1 : Int) := by
            rw [← zpow_add₀ (by norm_num : (2 : Rat) ≠ 0)]
            norm_num
        _ = 1 / 2 := by rw [zpow_neg_one]; norm_num
    have hv : rnVal q = 0 := by
      rw [rnVal, roundHalfEven_tiny _ habs]
      simp
    have hbig : |rnVal q| < 2 ^ (1024 : Int) := by
      rw [hv, abs_zero]
      exact zpow_pos (by norm_num) _
    rw [rnDouble, if_neg hq, if_pos hbig, hv]

set_option maxRecDepth 4000 in
/-- Values at or above the overflow threshold `2 ^ 1024 - 2 ^ 970` round
to infinity: the conversion reports overflow. -/
theorem rnDouble_big (q : Rat) (h : (2 : Rat) ^ (1024 : Int) - 2 ^ (970 : Int) ≤ q) :
    rnDouble q = none := by
  have hpow1 : (2 : Rat) ^ (970 : Int) < 2 ^ (1024 : Int) :=
    zpow_lt_zpow_right₀ (by norm_num) (by omega)
  have hq0 : 0 < q := by
    have := zpow_pos (by norm_num : (0 : Rat) < 2) (970 : Int)
    linarith
  have hq : q ≠ 0 := ne_of_gt hq0
  have hqa : |q| = q := abs_of_pos hq0
  obtain ⟨g1, g2⟩ := expOf_spec q hq
  rw [hqa] at g1 g2
  have h1023 : (2 : Rat) ^ (1023 : Int) ≤ q := by
    have hc1 : (2 : Rat) ^ (970 : Int) ≤ 2 ^ (1023 : Int) :=
      zpow_le_zpow_right₀ (by norm_num) (by omega)
    have hc2 : (2 : Rat) ^ (1024 : Int) = 2 ^ (1023 : Int) * 2 := by
      rw [show (1024 : Int) = 1023 + 1 by norm_num,
          zpow_add_one₀ (by norm_num : (2 : Rat) ≠ 0)]
    linarith
  have he : 1023 ≤ expOf q := by
    by_contra hc
    push_neg at hc
    have : (2 : Rat) ^ (expOf q + 1) ≤ 2 ^ (1023 : Int) :=
      zpow_le_zpow_right₀ (by norm_num) (by omega)
    linarith
  have hk : kOf q = 52 - expOf q := by
    rw [kOf, if_neg (by omega)]
  have hvbig : (2 : Rat) ^ (1024 : Int) ≤ rnVal q := by
    rcases eq_or_lt_of_le he with heq | hgt
    · have hk2 : kOf q = -971 := by omega
      have e1 : (2 : Rat) ^ (1024 : Int) * 2 ^ (-971 : Int) = 2 ^ (53 : Int) := by
        rw [← zpow_add₀ (by norm_num : (2 : Rat) ≠ 0)]
        norm_num
      have e2 : (2 : Rat) ^ (970 : Int) * 2 ^ (-971 : Int) = 1 / 2 := by
        rw [← zpow_add₀ (by norm_num : (2 : Rat) ≠ 0),
            show (970 : Int) + -971 = -1 by norm_num, zpow_neg_one]
        norm_num
      have ht : (2 : Rat) ^ (53 : Int) - 1 / 2 ≤ q * 2 ^ kOf q := by
        rw [hk2]
        calc (2 : Rat) ^ (53 : Int) - 1 / 2
            = ((2 : Rat) ^ (1024 : Int) - 2 ^ (970 : Int)) * 2 ^ (-971 : Int) := by
              rw [sub_mul, e1, e2]
          _ ≤ q * 2 ^ (-971 : Int) :=
              mul_le_mul_of_nonneg_right h (le_of_lt (zpow_pos (by norm_num) _))
      have hm : (2 ^ 53 : Int) ≤ roundHalfEven (q * 2 ^ kOf q) := by
        apply roundHalfEven_big _ _ (by norm_num)
        rw [show ((2 ^ 53 : Int) : Rat) = (2 : Rat) ^ (53 : Int) from (two_zpow_natCast 53).symm]
        exact ht
      rw [hk2] at hm
      rw [rnVal, hk2, neg_neg]
      calc (2 : Rat) ^ (1024 : Int) = 2 ^ (53 : Int) * 2 ^ (971 : Int) := by
            rw [← zpow_add₀ (by norm_num : (2 : Rat) ≠ 0)]
            norm_num
        _ ≤ (roundHalfEven (q * 2 ^ (-971 : Int)) : Rat) * 2 ^ (971 : Int) := by
            apply mul_le_mul_of_nonneg_right ?_ (le_of_lt (zpow_pos (by norm_num) _))
            calc (2 : Rat) ^ (53 : Int) = ((2 ^ 53 : Int) : Rat) := two_zpow_natCast 53
              _ ≤ _ := by exact_mod_cast hm
    · have ht : (2 : Rat) ^ (52 : Int) ≤ q * 2 ^ kOf q := by
        have hmul : (2 : Rat) ^ expOf q * 2 ^ kOf q ≤ q * 2 ^ kOf q :=
          mul_le_mul_of_nonneg_right g1 (le_of_lt (zpow_pos (by norm_num) _))
        calc (2 : Rat) ^ (52 : Int) = 2 ^ expOf q * 2 ^ kOf q := by
              rw [← zpow_add₀ (by norm_num : (2 : Rat) ≠ 0)]
              congr 1
              omega
          _ ≤ q * 2 ^ kOf q := hmul
      have herr := roundHalfEven_err (q * 2 ^ kOf q)
      rw [abs_le] at herr
      have hge : ((2 ^ 52 : Int) : Rat) - 1 / 2 ≤ (roundHalfEven (q * 2 ^ kOf q) : Rat) := by
        have hcast : (2 : Rat) ^ (52 : Int) = ((2 ^ 52 : Int) : Rat) := two_zpow_natCast 52
        have h1 := herr.1
        linarith [hcast ▸ ht]
      have hm : (2 ^ 52 : Int) ≤ roundHalfEven (q * 2 ^ kOf q) := by
        by_contra hc
        push_neg at hc
        have hle : (roundHalfEven (q * 2 ^ kOf q) : Rat) ≤ ((2 ^ 52 - 1 : Int) : Rat) := by
          exact_mod_cast (by omega : roundHalfEven (q * 2 ^ kOf q) ≤ 2 ^ 52 - 1)
        push_cast at hle hge
        linarith
      rw [rnVal]
      calc (2 : Rat) ^ (1024 : Int) ≤ 2 ^ expOf q :=
            zpow_le_zpow_right₀ (by norm_num) (by omega)
        _ = 2 ^ (52 : Int) * 2 ^ (-kOf q) := by
            rw [← zpow_add₀ (by norm_num : (2 : Rat) ≠ 0)]
            congr 1
            omega
        _ ≤ (roundHalfEven (q * 2 ^ kOf q) : Rat) * 2 ^ (-kOf q) := by
            apply mul_le_mul_of_nonneg_right ?_ (le_of_lt (zpow_pos (by norm_num) _))
            calc (2 : Rat) ^ (52 : Int) = ((2 ^ 52 : Int) : Rat) := two_zpow_natCast 52
              _ ≤ _ := by exact_mod_cast hm
  have hnot : ¬ |rnVal q| < 2 ^ (1024 : Int) :=
    not_lt.mpr (le_trans hvbig (le_abs_self _))
  rw [rnDouble, if_neg hq, if_neg hnot]

/-- Powers of two within the binary64 range convert to doubles
exactly. -/
theorem rnDouble_two_zpow (j : Int) (h1 : -1074 ≤ j) (h2 : j ≤ 1023) :
    rnDouble ((2 : Rat) ^ j) = some ((2 : Rat) ^ j) := by
  have hq0 : (0 : Rat) < 2 ^ j := zpow_pos (by norm_num) j
  have hq : (2 : Rat) ^ j ≠ 0 := ne_of_gt hq0
  have habs : |(2 : Rat) ^ j| = 2 ^ j := abs_of_pos hq0
  have he : expOf ((2 : Rat) ^ j) = j := by
    apply expOf_eq _ hq
    · rw [habs]
    · rw [habs]
      exact zpow_lt_zpow_right₀ (by norm_num) (by omega)
  have hksum : 0 ≤ j + kOf ((2 : Rat) ^ j) := by
    rw [kOf, he]
    split_ifs <;> omega
  have ht : (2 : Rat) ^ j * 2 ^ kOf ((2 : Rat) ^ j)
      = ((2 ^ (j + kOf ((2 : Rat) ^ j)).toNat : Int) : Rat) := by
    rw [← zpow_add₀ (by norm_num : (2 : Rat) ≠ 0), ← two_zpow_natCast,
        Int.toNat_of_nonneg hksum]
  have hv : rnVal ((2 : Rat) ^ j) = (2 : Rat) ^ j := by
    rw [rnVal, ht, roundHalfEven_intCast, ← two_zpow_natCast,
        Int.toNat_of_nonneg hksum, ← zpow_add₀ (by norm_num : (2 : Rat) ≠ 0)]
    congr 1
    ring
  have hbig : |rnVal ((2 : Rat) ^ j)| < 2 ^ (1024 : Int) := by
    rw [hv, habs]
    exact zpow_lt_zpow_right₀ (by norm_num) (by omega)
  rw [rnDouble, if_neg hq, if_pos hbig, hv]

/-- Counterexample to C10 as stated: the claim asserts that for *every*
base of magnitude at least 2 and *every* negative exponent the `^`
builtin raises no error and wraps a non-integer value.  CPython first
converts the base to a double, which raises `OverflowError` for
`(10 ^ 400) ** -1`; and `2 ** -1100` underflows to the float `0.0`,
whose value is the integer zero. -/
theorem negative_power_cex :
    applyBuiltin .power [.integer (.int (10 ^ 400)), .integer (.int (-1))] emptyEnv
      = (.error .overflowError, emptyEnv) ∧
    applyBuiltin .power [.integer (.int 2), .integer (.int (-1100))] emptyEnv
      = (.ok (.integer (.float 0)), emptyEnv) := by
  constructor
  · have hA : intToDouble (10 ^ 400) = none := by
      rw [intToDouble]
      apply rnDouble_big
      have hZ : (2 ^ 1024 - 2 ^ 970 : Int) ≤ 10 ^ 400 := by
        have h1 : ((2 : Int) ^ 3) ^ 341 ≤ 10 ^ 341 :=
          pow_le_pow_left₀ (by norm_num) (by norm_num) _
        have h2 : (0 : Int) < 10 ^ 341 := pow_pos (by norm_num) _
        have h3 : (0 : Int) ≤ 2 ^ 970 := by positivity
        have hle : (2 : Int) ^ 1024 ≤ 10 ^ 400 := by
          calc (2 : Int) ^ 1024 = 2 ^ (3 * 341 + 1) := by norm_num
            _ = (2 ^ 3) ^ 341 * 2 := by rw [pow_add, pow_mul, pow_one]
            _ ≤ 10 ^ 341 * 2 := mul_le_mul_of_nonneg_right h1 (by norm_num)
            _ ≤ 10 ^ 341 * 10 := by nlinarith
            _ = 10 ^ 342 := by rw [← pow_succ]
            _ ≤ 10 ^ 400 := pow_le_pow_right₀ (by norm_num) (by omega)
        linarith
      have hcast : ((2 ^ 1024 - 2 ^ 970 : Int) : Rat) ≤ ((10 ^ 400 : Int) : Rat) := by
        exact_mod_cast hZ
      calc (2 : Rat) ^ (1024 : Int) - 2 ^ (970 : Int)
          = ((2 ^ 1024 - 2 ^ 970 : Int) : Rat) := by
            rw [Int.cast_sub]
            norm_num [← zpow_natCast (2 : Rat)]
        _ ≤ ((10 ^ 400 : Int) : Rat) := hcast
    have h10 : ¬ ((10 : Int) ^ 400 = 0) := pow_ne_zero 400 (by norm_num)
    simp only [applyBuiltin, arithCall, getValue, pyPow, hA, h10]
    norm_num
  · have hA : intToDouble 2 = some ((2 : Int) : Rat) :=
      rnDouble_intCast 2 (by norm_num) (by norm_num)
    have hB : intToDouble (-1100) = some (((-1100) : Int) : Rat) :=
      rnDouble_intCast (-1100) (by norm_num) (by norm_num)
    have hr : rnDouble (((2 : Int) : Rat) ^ (-1100 : Int)) = some 0 := by
      apply rnDouble_tiny
      have hpos : (0 : Rat) < ((2 : Int) : Rat) ^ (-1100 : Int) :=
        zpow_pos (by norm_num) _
      rw [abs_of_pos hpos]
      have h2 : ((2 : Int) : Rat) = (2 : Rat) := by norm_num
      rw [h2]
      exact zpow_le_zpow_right₀ (by norm_num) (by omega)
    simp only [applyBuiltin, arithCall, getValue, pyPow, hA, hB, Rat.num_intCast, hr]
    norm_num

/-- C10 as amended: with bases and exponents in double range the claim
holds — invoking `^` on an integer base `a`, `2 ≤ |a| < 2 ^ 53`, with a
negative exponent `b` whose result does not underflow (its magnitude
exceeds half the smallest subnormal) raises no error and returns an
`Integer` term wrapping the correctly rounded double of `a ^ b`, a float
value strictly between 0 and 1 in magnitude and hence equal to no
integer — violating the integer-payload expectation.  Bases at or above
`2 ^ 1024 - 2 ^ 970` instead raise `OverflowError` during conversion, and
underflowing results yield the float `0.0` (see the counterexample).  In
particular `(^ 2 -1)` fully reduces to `Integer(0.5)`, which is IEEE
exact. -/
theorem negative_power_float_payload :
    (∀ a b : Int, 2 ≤ |a| → |a| < 2 ^ 53 → b < 0 →
      (2 : Rat) ^ (-1075 : Int) < |((a : Int) : Rat) ^ b| →
      pyPow (.int a) (.int b) = .ok (.float (rnVal (((a : Int) : Rat) ^ b))) ∧
      0 < |rnVal (((a : Int) : Rat) ^ b)| ∧ |rnVal (((a : Int) : Rat) ^ b)| < 1 ∧
      ∀ m : Int, rnVal (((a : Int) : Rat) ^ b) ≠ (m : Rat)) ∧
    (∀ a b : Int, (2 : Int) ^ 1024 - 2 ^ 970 ≤ a → b < 0 →
      pyPow (.int a) (.int b) = .error .overflowError) ∧
    (reduceE 6 (.call (.name "^") [.integer (.int 2), .integer (.int (-1))])
        BUILT_IN_NAMES).1 = .ok (.integer (.float (1 / 2))) := by
  refine ⟨?_, ?_, ?_⟩
  · intro a b ha hasmall hb hlo
    have ha0 : a ≠ 0 := by
      intro h
      rw [h] at ha
      simp at ha
    have hb0 : ¬ (0 ≤ b) := by omega
    have haQ : (2 : Rat) ≤ |(a : Rat)| := by
      rw [← Int.cast_abs]
      exact_mod_cast ha
    have habs : |(a : Rat) ^ b| = |(a : Rat)| ^ b := abs_zpow_rat _ _
    have hxb : |(a : Rat)| ^ b ≤ (2 : Rat) ^ b := by
      have hnb : 0 ≤ -b := by omega
      have hpow : (2 : Rat) ^ (-b) ≤ |(a : Rat)| ^ (-b) := by
        rw [show (-b) = (((-b).toNat : Int)) from (Int.toNat_of_nonneg hnb).symm,
            zpow_natCast, zpow_natCast]
        exact pow_le_pow_left₀ (by norm_num) haQ _
      have h2pos : (0 : Rat) < 2 ^ (-b) := zpow_pos (by norm_num) _
      have hinv : (|(a : Rat)| ^ (-b))⁻¹ ≤ ((2 : Rat) ^ (-b))⁻¹ := inv_anti₀ h2pos hpow
      rw [← zpow_neg, ← zpow_neg, neg_neg] at hinv
      exact hinv
    have hup : |(a : Rat) ^ b| ≤ 1 / 2 := by
      rw [habs]
      calc |(a : Rat)| ^ b ≤ (2 : Rat) ^ b := hxb
        _ ≤ 2 ^ (-1 : Int) := zpow_le_zpow_right₀ (by norm_num) (by omega)
        _ = 1 / 2 := by rw [zpow_neg_one]; norm_num
    have hble : -b ≤ 1074 := by
      by_contra hc
      push_neg at hc
      have h1 : (2 : Rat) ^ b ≤ 2 ^ (-1075 : Int) :=
        zpow_le_zpow_right₀ (by norm_num) (by omega)
      have h2 : |(a : Rat) ^ b| ≤ 2 ^ (-1075 : Int) := by
        rw [habs]
        linarith
      linarith
    have hq0 : (a : Rat) ^ b ≠ 0 := zpow_ne_zero _ (Int.cast_ne_zero.mpr ha0)
    obtain ⟨hrd, hpos, hlt⟩ := rnDouble_small ((a : Rat) ^ b) hq0 hup hlo
    have hA : intToDouble a = some ((a : Int) : Rat) := rnDouble_intCast a ha0 hasmall
    have hB : intToDouble b = some ((b : Int) : Rat) := by
      apply rnDouble_intCast b (by omega)
      have hbn : |b| = -b := abs_of_neg (by omega)
      rw [hbn]
      calc -b ≤ 1074 := hble
        _ < 2 ^ 53 := by norm_num
    refine ⟨?_, hpos, hlt, ?_⟩
    · simp only [pyPow, hb0, ha0, hA, hB, Rat.num_intCast, hrd, if_false, ite_false]
    · intro m hm
      rw [hm, ← Int.cast_abs] at hpos hlt
      have h1 : 0 < |m| := by exact_mod_cast hpos
      have h2 : |m| < 1 := by exact_mod_cast hlt
      omega
  · intro a b ha hb
    have hb0 : ¬ (0 ≤ b) := by omega
    have hth : (0 : Int) < 2 ^ 1024 - 2 ^ 970 := by
      have : (2 : Int) ^ 970 < 2 ^ 1024 := pow_lt_pow_right₀ (by norm_num) (by omega)
      linarith
    have ha0 : ¬ (a = 0) := by
      intro h
      rw [h] at ha
      linarith
    have hA : intToDouble a = none := by
      rw [intToDouble]
      apply rnDouble_big
      have hcast : ((2 ^ 1024 - 2 ^ 970 : Int) : Rat) ≤ ((a : Int) : Rat) := by
        exact_mod_cast ha
      calc (2 : Rat) ^ (1024 : Int) - 2 ^ (970 : Int)
          = ((2 ^ 1024 - 2 ^ 970 : Int) : Rat) := by
            rw [Int.cast_sub]
            norm_num [← zpow_natCast (2 : Rat)]
        _ ≤ ((a : Int) : Rat) := hcast
    simp only [pyPow, hb0, ha0, hA, if_false, ite_false]
  · have hA : intToDouble 2 = some ((2 : Int) : Rat) :=
      rnDouble_intCast 2 (by norm_num) (by norm_num)
    have hB : intToDouble (-1) = some (((-1) : Int) : Rat) :=
      rnDouble_intCast (-1) (by norm_num) (by norm_num)
    have hr : rnDouble (((2 : Int) : Rat) ^ (-1 : Int)) = some (1 / 2) := by
      have h2 : ((2 : Int) : Rat) = (2 : Rat) := by norm_num
      have hval : (2 : Rat) ^ (-1 : Int) = 1 / 2 := by
        rw [zpow_neg_one]
        norm_num
      rw [h2, ← hval]
      exact rnDouble_two_zpow (-1) (by norm_num) (by norm_num)
    have happ : applyBuiltin .power [.integer (.int 2), .integer (.int (-1))] BUILT_IN_NAMES
        = (.ok (.integer (.float (1 / 2))), BUILT_IN_NAMES) := by
      simp only [applyBuiltin, arithCall, getValue, pyPow, hA, hB, Rat.num_intCast, hr]
      norm_num
    calc (reduceE 6 (.call (.name "^") [.integer (.int 2), .integer (.int (-1))])
            BUILT_IN_NAMES).1
        = ((match applyBuiltin .power [.integer (.int 2), .integer (.int (-1))]
              BUILT_IN_NAMES with
            | (.error e, env₁) => ((.error e : Except Err Entity), env₁)
            | (.ok next, env₁) => reduceLoop 5 next none env₁) : Res).1 := rfl
      _ = (reduceLoop 5 (.integer (.float (1 / 2))) none BUILT_IN_NAMES).1 := by
          rw [happ]
      _ = .ok (.integer (.float (1 / 2))) := rfl

/-- Witness for `negative_power_float_payload` at base 3 and exponent
-1: the invocation succeeds with a float payload that differs from the
integer 0. -/
theorem negative_power_float_payload_witness :
    pyPow (.int 3) (.int (-1)) = .ok (.float (rnVal (((3 : Int) : Rat) ^ (-1 : Int)))) ∧
    rnVal (((3 : Int) : Rat) ^ (-1 : Int)) ≠ ((0 : Int) : Rat) := by
  have hlo : (2 : Rat) ^ (-1075 : Int) < |((3 : Int) : Rat) ^ (-1 : Int)| := by
    have h3 : ((3 : Int) : Rat) = (3 : Rat) := by norm_num
    have habs : |((3 : Int) : Rat) ^ (-1 : Int)| = 1 / 3 := by
      rw [h3, zpow_neg_one, abs_of_pos (by norm_num : (0 : Rat) < 3⁻¹)]
      norm_num
    rw [habs]
    have hstep : (2 : Rat) ^ (-1075 : Int) ≤ 2 ^ (-2 : Int) :=
      zpow_le_zpow_right₀ (by norm_num) (by omega)
    have hq : (2 : Rat) ^ (-2 : Int) = 1 / 4 := by
      rw [show (-2 : Int) = -1 + -1 by norm_num,
          zpow_add₀ (by norm_num : (2 : Rat) ≠ 0), zpow_neg_one]
      norm_num
    calc (2 : Rat) ^ (-1075 : Int) ≤ 2 ^ (-2 : Int) := hstep
      _ = 1 / 4 := hq
      _ < 1 / 3 := by norm_num
  exact ⟨(negative_power_float_payload.1 3 (-1) (by norm_num) (by norm_num)
            (by norm_num) hlo).1,
         (negative_power_float_payload.1 3 (-1) (by norm_num) (by norm_num)
            (by norm_num) hlo).2.2.2 0⟩
